import Mathlib

/-!
Verification of the BIDR (Bi-illumination Dichromatic Reflection) estimation
engine: log-color transform, illuminant-spectral-direction (ISD) estimation,
orthonormal basis construction, plane projection and the lit-to-shadow
trajectory line.  The definitions below are a shallow embedding of the three
Python source files (`chroma_plane_2d_3d.py`, `simulate_cylinder.py`,
`linear_log_comparison.py`), with NumPy arrays of RGB triplets modelled as
`Vec3` over the real numbers and batch (vectorized) operations modelled as
maps over lists.
-/

namespace BIDR

noncomputable section

/-- A 3-component color vector (R, G, B); models one row of a NumPy array. -/
@[ext] structure Vec3 where
  x : ℝ
  y : ℝ
  z : ℝ

namespace Vec3

instance : Add Vec3 := ⟨fun a b => ⟨a.x + b.x, a.y + b.y, a.z + b.z⟩⟩

instance : Sub Vec3 := ⟨fun a b => ⟨a.x - b.x, a.y - b.y, a.z - b.z⟩⟩

instance : SMul ℝ Vec3 := ⟨fun c v => ⟨c * v.x, c * v.y, c * v.z⟩⟩

instance : Zero Vec3 := ⟨⟨0, 0, 0⟩⟩

end Vec3

/-- Dot product of two 3-vectors (`np.dot` / `@` on rows). -/
def dot (a b : Vec3) : ℝ := a.x * b.x + a.y * b.y + a.z * b.z

/-- Cross product of two 3-vectors (`np.cross`). -/
def cross (a b : Vec3) : Vec3 :=
  ⟨a.y * b.z - a.z * b.y, a.z * b.x - a.x * b.z, a.x * b.y - a.y * b.x⟩

/-- Euclidean norm of a 3-vector (`np.linalg.norm`). -/
def norm3 (v : Vec3) : ℝ := Real.sqrt (dot v v)

/-- One-sided clip to a lower bound: `np.clip(x, lo, None)`. -/
def clipLower (x lo : ℝ) : ℝ := if x < lo then lo else x

/-- Log transform of `chroma_plane_2d_3d.py` (`to_log_rgb`):
`np.log(np.clip(I, eps, None))`, componentwise on one sample. -/
def to_log_rgb (v : Vec3) (eps : ℝ) : Vec3 :=
  ⟨Real.log (clipLower v.x eps), Real.log (clipLower v.y eps), Real.log (clipLower v.z eps)⟩

/-- First line of `orthonormal_basis_from_vector`: `v = v / (np.linalg.norm(v) + 1e-12)`. -/
def vhat (v : Vec3) : Vec3 := (1 / (norm3 v + 1e-12)) • v

/-- Helper-axis choice of `orthonormal_basis_from_vector`:
`a = [1,0,0] if abs(v[0]) < 0.9 else [0,1,0]`, where `v` is the renormalized vector. -/
def helperFor (v : Vec3) : Vec3 :=
  if |(vhat v).x| < 0.9 then ⟨1, 0, 0⟩ else ⟨0, 1, 0⟩

/-- Gram-Schmidt rejection `u1 = a - np.dot(a, v) * v`, prior to normalization. -/
def u1pre (v : Vec3) : Vec3 := helperFor v - dot (helperFor v) (vhat v) • vhat v

/-- Normalized first basis vector: `u1 /= (np.linalg.norm(u1) + 1e-12)`. -/
def u1of (v : Vec3) : Vec3 := (1 / (norm3 (u1pre v) + 1e-12)) • u1pre v

/-- Cross product `u2 = np.cross(v, u1)`, prior to normalization. -/
def u2pre (v : Vec3) : Vec3 := cross (vhat v) (u1of v)

/-- Normalized second basis vector: `u2 /= (np.linalg.norm(u2) + 1e-12)`. -/
def u2of (v : Vec3) : Vec3 := (1 / (norm3 (u2pre v) + 1e-12)) • u2pre v

/-- The basis builder of `chroma_plane_2d_3d.py` (`orthonormal_basis_from_vector`). -/
def orthonormal_basis_from_vector (v : Vec3) : Vec3 × Vec3 := (u1of v, u2of v)

/-- One result of the plane projector: (projected 3-D point, coordinate a, coordinate b). -/
def projectPoint (origin u1 u2 : Vec3) (p : Vec3) : Vec3 × ℝ × ℝ :=
  (origin + dot (p - origin) u1 • u1 + dot (p - origin) u2 • u2,
   dot (p - origin) u1, dot (p - origin) u2)

/-- Batch plane projector of `chroma_plane_2d_3d.py` (`project_onto_plane`): the
vectorized `dp = points - origin; a = dp @ u1; b = dp @ u2;
origin + np.outer(a, u1) + np.outer(b, u2)` as a row-wise map. -/
def project_onto_plane (points : List Vec3) (origin u1 u2 : Vec3) : List (Vec3 × ℝ × ℝ) :=
  points.map (projectPoint origin u1 u2)

/-- Denominator of the illuminant-vector ISD path (`chroma_plane_2d_3d.py`, line 40):
`np.linalg.norm(isd) + 1e-12`. -/
def isdVecDenom (A D : Vec3) : ℝ :=
  norm3 (to_log_rgb (A + D) 1e-8 - to_log_rgb A 1e-8) + 1e-12

/-- ISD from illuminant vectors (`chroma_plane_2d_3d.py`, lines 39-40):
`isd = to_log_rgb(A + D) - to_log_rgb(A); isd /= (np.linalg.norm(isd) + 1e-12)`. -/
def estimate_isd_vectors (A D : Vec3) : Vec3 :=
  (1 / isdVecDenom A D) • (to_log_rgb (A + D) 1e-8 - to_log_rgb A 1e-8)

/-- Sum of a list of vectors (`np.sum` over axis 0). -/
def vsum : List Vec3 → Vec3
  | [] => 0
  | v :: rest => v + vsum rest

/-- Componentwise mean of the per-pair lit-minus-shadow differences
(`np.mean(lit_log - shadow_log, axis=0)` in `simulate_cylinder.py`, line 49);
each list entry is a (lit, shadow) pair of log samples. -/
def meanDiff (pairs : List (Vec3 × Vec3)) : Vec3 :=
  (1 / (pairs.length : ℝ)) • vsum (pairs.map (fun pr => pr.1 - pr.2))

/-- Denominator of the sample-pair ISD path (`simulate_cylinder.py`, line 50):
`np.linalg.norm(isd)`, with no added stabilizing constant. -/
def isdPairsDenom (pairs : List (Vec3 × Vec3)) : ℝ := norm3 (meanDiff pairs)

/-- ISD from lit/shadow sample pairs (`simulate_cylinder.py`, lines 49-50):
`isd = np.mean(lit_log - shadow_log, axis=0); isd /= np.linalg.norm(isd)`. -/
def estimate_isd_pairs (pairs : List (Vec3 × Vec3)) : Vec3 :=
  (1 / isdPairsDenom pairs) • meanDiff pairs

/-- Definition following the spec's words for §4.2: the mean difference is
normalized "by dividing by the Euclidean norm plus a small stabilizing
constant (on the order of 1e-12)"; kept separate so it can be compared with
`estimate_isd_pairs`, which embeds the source. -/
def estimate_isd_pairs_spec (pairs : List (Vec3 × Vec3)) : Vec3 :=
  (1 / (isdPairsDenom pairs + 1e-12)) • meanDiff pairs

/-- Rescaling of the lit-minus-shadow difference of every sample pair by a
factor k, keeping each shadow sample fixed: pair (lit, shadow) becomes
(shadow + k * (lit - shadow), shadow), so each difference vector becomes
k * (lit - shadow). -/
def scale_diffs (k : ℝ) (pairs : List (Vec3 × Vec3)) : List (Vec3 × Vec3) :=
  pairs.map (fun pr => (pr.2 + k • (pr.1 - pr.2), pr.2))

/-- Trajectory line of `simulate_cylinder.py` (lines 69-70) with the sample
count generalized to a parameter: `t = np.linspace(0, 1, n)` gives
`t i = i / (n - 1)` for `i = 0, ..., n-1`, and the points are
`shadow_anchor + t * (lit_anchor - shadow_anchor)` (the source fixes `n = 50`;
the spec's §4.5 names the count `sample_count`). -/
def build_trajectory (S L : Vec3) (n : ℕ) : List Vec3 :=
  (List.range n).map (fun i : ℕ => S + ((i : ℝ) / ((n : ℝ) - 1)) • (L - S))

/-- Smallest component of a sample (`np.min` over the array in `normalize01`). -/
def vmin (v : Vec3) : ℝ := min v.x (min v.y v.z)

/-- Largest component of a sample (`np.max` over the array in `normalize01`). -/
def vmax (v : Vec3) : ℝ := max v.x (max v.y v.z)

/-- Affine rescaling of `linear_log_comparison.py` (`normalize01`):
`(arr - arr.min()) / (arr.max() - arr.min() + 1e-8)`, on one sample. -/
def normalize01 (v : Vec3) : Vec3 :=
  (1 / (vmax v - vmin v + 1e-8)) • (v - ⟨vmin v, vmin v, vmin v⟩)

/-- Log transform of `linear_log_comparison.py` (`to_log_rgb`):
`normalize01(np.log(img + eps))`, componentwise on one sample. -/
def to_log_rgb_cmp (v : Vec3) (eps : ℝ) : Vec3 :=
  normalize01 ⟨Real.log (v.x + eps), Real.log (v.y + eps), Real.log (v.z + eps)⟩

/-- Modelled from the spec: the error taxonomy of §7 (`InsufficientSamplesError`);
no exception type or raise site exists in the source scripts. -/
inductive EngineError where
  | insufficientSamples
deriving DecidableEq

/-- Modelled from the spec: §7 requires `estimate_isd` to raise
`InsufficientSamplesError` on zero sample pairs rather than substitute a
default; the source scripts only ever run the estimator on a fixed non-empty
sample array, so the validating entry point is missing from the source. -/
def estimate_isd_checked (pairs : List (Vec3 × Vec3)) : Except EngineError Vec3 :=
  if pairs.isEmpty then .error .insufficientSamples else .ok (estimate_isd_pairs pairs)

/-- Modelled from the spec: §4.5 and §7 require the trajectory model to reject
`sample_count < 2` with `InsufficientSamplesError`; the source script fixes the
count at 50 and has no validating entry point. -/
def build_trajectory_checked (S L : Vec3) (n : ℕ) : Except EngineError (List Vec3) :=
  if n < 2 then .error .insufficientSamples else .ok (build_trajectory S L n)

namespace Vec3

@[simp] theorem add_x (a b : Vec3) : (a + b).x = a.x + b.x := rfl

@[simp] theorem add_y (a b : Vec3) : (a + b).y = a.y + b.y := rfl

@[simp] theorem add_z (a b : Vec3) : (a + b).z = a.z + b.z := rfl

@[simp] theorem sub_x (a b : Vec3) : (a - b).x = a.x - b.x := rfl

@[simp] theorem sub_y (a b : Vec3) : (a - b).y = a.y - b.y := rfl

@[simp] theorem sub_z (a b : Vec3) : (a - b).z = a.z - b.z := rfl

@[simp] theorem smul_x (c : ℝ) (v : Vec3) : (c • v).x = c * v.x := rfl

@[simp] theorem smul_y (c : ℝ) (v : Vec3) : (c • v).y = c * v.y := rfl

@[simp] theorem smul_z (c : ℝ) (v : Vec3) : (c • v).z = c * v.z := rfl

@[simp] theorem zero_x : (0 : Vec3).x = 0 := rfl

@[simp] theorem zero_y : (0 : Vec3).y = 0 := rfl

@[simp] theorem zero_z : (0 : Vec3).z = 0 := rfl

end Vec3

theorem dot_self_nonneg (v : Vec3) : 0 ≤ dot v v := by
  simp only [dot]
  nlinarith [sq_nonneg v.x, sq_nonneg v.y, sq_nonneg v.z]

theorem norm3_nonneg (v : Vec3) : 0 ≤ norm3 v := Real.sqrt_nonneg _

theorem norm3_sq (v : Vec3) : norm3 v ^ 2 = dot v v := Real.sq_sqrt (dot_self_nonneg v)

@[simp] theorem norm3_zero : norm3 (0 : Vec3) = 0 := by
  simp [norm3, dot]

theorem dot_comm (a b : Vec3) : dot a b = dot b a := by
  simp only [dot]; ring

theorem dot_smul_right (c : ℝ) (a b : Vec3) : dot a (c • b) = c * dot a b := by
  simp only [dot, Vec3.smul_x, Vec3.smul_y, Vec3.smul_z]; ring

theorem dot_smul_left (c : ℝ) (a b : Vec3) : dot (c • a) b = c * dot a b := by
  simp only [dot, Vec3.smul_x, Vec3.smul_y, Vec3.smul_z]; ring

theorem cross_smul_left (c : ℝ) (a b : Vec3) : cross (c • a) b = c • cross a b := by
  ext <;> simp [cross] <;> ring

/-- Lagrange identity: the squared norm of a cross product. -/
theorem dot_cross_self (a b : Vec3) :
    dot (cross a b) (cross a b) = dot a a * dot b b - dot a b ^ 2 := by
  simp only [dot, cross]; ring

/-- A vector is orthogonal to its own cross products (left argument). -/
theorem dot_cross_left (a b : Vec3) : dot a (cross a b) = 0 := by
  simp only [dot, cross]; ring

/-- A vector is orthogonal to its own cross products (right argument). -/
theorem dot_cross_right (a b : Vec3) : dot b (cross a b) = 0 := by
  simp only [dot, cross]; ring

theorem norm3_smul (c : ℝ) (v : Vec3) : norm3 (c • v) = |c| * norm3 v := by
  have h : dot (c • v) (c • v) = c ^ 2 * dot v v := by
    simp only [dot, Vec3.smul_x, Vec3.smul_y, Vec3.smul_z]; ring
  rw [norm3, h, Real.sqrt_mul (sq_nonneg c), Real.sqrt_sq_eq_abs, norm3]

theorem le_norm3 (v : Vec3) (a : ℝ) (h : a ^ 2 ≤ dot v v) : a ≤ norm3 v := by
  rcases le_or_lt a 0 with ha | ha
  · exact ha.trans (norm3_nonneg v)
  · nlinarith [norm3_sq v, norm3_nonneg v]

theorem norm3_le (v : Vec3) (b : ℝ) (h0 : 0 ≤ b) (h : dot v v ≤ b ^ 2) : norm3 v ≤ b := by
  nlinarith [norm3_sq v, norm3_nonneg v]

theorem abs_x_le_norm3 (v : Vec3) : |v.x| ≤ norm3 v := by
  apply le_norm3
  simp only [dot, sq_abs]
  nlinarith [sq_nonneg v.y, sq_nonneg v.z]

theorem abs_y_le_norm3 (v : Vec3) : |v.y| ≤ norm3 v := by
  apply le_norm3
  simp only [dot, sq_abs]
  nlinarith [sq_nonneg v.x, sq_nonneg v.z]

theorem abs_z_le_norm3 (v : Vec3) : |v.z| ≤ norm3 v := by
  apply le_norm3
  simp only [dot, sq_abs]
  nlinarith [sq_nonneg v.x, sq_nonneg v.y]

theorem norm3_pos_of_ne_zero (v : Vec3) (h : v ≠ 0) : 0 < norm3 v := by
  rcases lt_or_eq_of_le (norm3_nonneg v) with hlt | heq
  · exact hlt
  · exfalso
    apply h
    have hd : dot v v = 0 := by
      have := norm3_sq v
      rw [← heq] at this
      simpa using this.symm
    have hx : v.x = 0 := by
      simp only [dot] at hd
      nlinarith [sq_nonneg v.x, sq_nonneg v.y, sq_nonneg v.z]
    have hy : v.y = 0 := by
      simp only [dot] at hd
      nlinarith [sq_nonneg v.x, sq_nonneg v.y, sq_nonneg v.z]
    have hz : v.z = 0 := by
      simp only [dot] at hd
      nlinarith [sq_nonneg v.x, sq_nonneg v.y, sq_nonneg v.z]
    ext <;> simp [hx, hy, hz]

theorem dot_add_left (a b c : Vec3) : dot (a + b) c = dot a c + dot b c := by
  simp only [dot, Vec3.add_x, Vec3.add_y, Vec3.add_z]; ring

theorem sub_cancel_left (a b : Vec3) : a + b - a = b := by
  ext <;> simp

/-- C3: `project_onto_plane` returns exactly one result per input point, in the
input order: the i-th output exists iff the i-th input does, and it carries the
coordinates a = (p - origin) dot u1, b = (p - origin) dot u2 and the projected
3-D point origin + a * u1 + b * u2 for the i-th input point p. -/
theorem project_onto_plane_pointwise (points : List Vec3) (origin u1 u2 : Vec3) :
    (project_onto_plane points origin u1 u2).length = points.length ∧
    ∀ i : ℕ, (project_onto_plane points origin u1 u2)[i]? =
      (points[i]?).map (fun p =>
        (origin + dot (p - origin) u1 • u1 + dot (p - origin) u2 • u2,
         dot (p - origin) u1, dot (p - origin) u2)) := by
  constructor
  · exact List.length_map _ _
  · intro i
    rw [project_onto_plane, List.getElem?_map]
    rfl

/-- C7: the projection of a point that already lies in the plane, written as
origin + a * u1 + b * u2 over an orthonormal (u1, u2), is that point itself,
with exactly the coordinates (a, b) it was built from. -/
theorem project_in_plane_exact (origin u1 u2 p : Vec3) (a b : ℝ)
    (h1 : dot u1 u1 = 1) (h2 : dot u2 u2 = 1) (h12 : dot u1 u2 = 0)
    (hp : p = origin + (a • u1 + b • u2)) :
    project_onto_plane [p] origin u1 u2 = [(p, a, b)] := by
  have hdp : p - origin = a • u1 + b • u2 := by rw [hp, sub_cancel_left]
  have ha : dot (p - origin) u1 = a := by
    rw [hdp, dot_add_left, dot_smul_left, dot_smul_left, h1, dot_comm u2 u1, h12]
    ring
  have hb : dot (p - origin) u2 = b := by
    rw [hdp, dot_add_left, dot_smul_left, dot_smul_left, h2, h12]
    ring
  have hback : origin + a • u1 + b • u2 = p := by
    rw [hp]
    ext <;> simp <;> ring
  simp only [project_onto_plane, List.map, projectPoint, ha, hb, hback]

/-- C7 witness: a concrete in-plane point, p = origin + 2 * u1 + 3 * u2 with the
standard basis vectors, projects to itself with coordinates (2, 3). -/
theorem project_in_plane_exact_witness :
    dot ⟨1, 0, 0⟩ ⟨1, 0, 0⟩ = 1 ∧ dot ⟨0, 1, 0⟩ ⟨0, 1, 0⟩ = 1 ∧
    dot ⟨1, 0, 0⟩ ⟨0, 1, 0⟩ = 0 ∧
    (⟨2, 3, 0⟩ : Vec3) = ⟨0, 0, 0⟩ + ((2 : ℝ) • ⟨1, 0, 0⟩ + (3 : ℝ) • ⟨0, 1, 0⟩) ∧
    project_onto_plane [⟨2, 3, 0⟩] ⟨0, 0, 0⟩ ⟨1, 0, 0⟩ ⟨0, 1, 0⟩ = [(⟨2, 3, 0⟩, 2, 3)] := by
  refine ⟨by simp [dot], by simp [dot], by simp [dot], by ext <;> simp, ?_⟩
  exact project_in_plane_exact ⟨0, 0, 0⟩ ⟨1, 0, 0⟩ ⟨0, 1, 0⟩ ⟨2, 3, 0⟩ 2 3
    (by simp [dot]) (by simp [dot]) (by simp [dot]) (by ext <;> simp)

/-- C9: the validating entry points reject insufficient input with
`InsufficientSamplesError` and only then: the estimator errors exactly on an
empty pair list, and the trajectory model errors exactly when asked for fewer
than 2 points; in all other cases a result value is produced, so no default is
silently substituted in the error cases. -/
theorem checked_insufficient_samples :
    (∀ pairs : List (Vec3 × Vec3),
      estimate_isd_checked pairs = .error .insufficientSamples ↔ pairs = []) ∧
    (∀ (S L : Vec3) (n : ℕ),
      build_trajectory_checked S L n = .error .insufficientSamples ↔ n < 2) := by
  constructor
  · intro pairs
    cases pairs with
    | nil => simp [estimate_isd_checked]
    | cons p rest => simp [estimate_isd_checked]
  · intro S L n
    by_cases hn : n < 2
    · simp [build_trajectory_checked, hn]
    · simp [build_trajectory_checked, hn]

theorem build_trajectory_getElem (S L : Vec3) (n i : ℕ) (hi : i < n) :
    (build_trajectory S L n)[i]? = some (S + ((i : ℝ) / ((n : ℝ) - 1)) • (L - S)) := by
  rw [build_trajectory, List.getElem?_map]
  simp [List.getElem?_range, hi]

/-- C4: for n at least 2, the trajectory has n points, of the form
S + (i/(n-1)) * (L - S) for i = 0, ..., n-1 (the parameter values i/(n-1) are
evenly spaced over the unit interval, endpoints included); the first point is
exactly S, the last exactly L, every point is collinear with S and L, and the
concrete call with anchors (0,0,0), (1,1,1) and 3 samples returns exactly
[(0,0,0), (0.5,0.5,0.5), (1,1,1)]. -/
theorem build_trajectory_spec (S L : Vec3) (n : ℕ) (hn : 2 ≤ n) :
    (build_trajectory S L n).length = n ∧
    (build_trajectory S L n)[0]? = some S ∧
    (build_trajectory S L n)[n - 1]? = some L ∧
    (∀ i : ℕ, i < n →
      (build_trajectory S L n)[i]? = some (S + ((i : ℝ) / ((n : ℝ) - 1)) • (L - S))) ∧
    (∀ (i : ℕ) (p : Vec3), i < n → (build_trajectory S L n)[i]? = some p →
      cross (p - S) (L - S) = 0) ∧
    build_trajectory ⟨0, 0, 0⟩ ⟨1, 1, 1⟩ 3 = [⟨0, 0, 0⟩, ⟨0.5, 0.5, 0.5⟩, ⟨1, 1, 1⟩] := by
  have hlen : (build_trajectory S L n).length = n := by
    rw [build_trajectory, List.length_map, List.length_range]
  have hn1 : (1 : ℝ) ≤ (n : ℝ) - 1 := by
    have : (2 : ℝ) ≤ (n : ℝ) := by exact_mod_cast hn
    linarith
  refine ⟨hlen, ?_, ?_, fun i hi => build_trajectory_getElem S L n i hi, ?_, ?_⟩
  · rw [build_trajectory_getElem S L n 0 (by omega)]
    congr 1
    ext <;> simp
  · rw [build_trajectory_getElem S L n (n - 1) (by omega)]
    congr 1
    have hcast : ((n - 1 : ℕ) : ℝ) = (n : ℝ) - 1 := by
      have h1 : 1 ≤ n := by omega
      push_cast [Nat.cast_sub h1]
      ring
    rw [hcast, div_self (by linarith)]
    ext <;> simp
  · intro i p hi hp
    rw [build_trajectory_getElem S L n i hi] at hp
    have hpv : p = S + ((i : ℝ) / ((n : ℝ) - 1)) • (L - S) := by
      injection hp with h
      exact h.symm
    rw [hpv, sub_cancel_left]
    ext <;> simp [cross] <;> ring
  · have h3 : List.range 3 = [0, 1, 2] := rfl
    rw [build_trajectory, h3]
    simp only [List.map]
    refine congrArg₂ _ ?_ (congrArg₂ _ ?_ (congrArg₂ _ ?_ rfl)) <;> ext <;> simp <;> norm_num

/-- C4 witness: the hypothesis n at least 2 is satisfied at n = 3, where the
trajectory between (0,0,0) and (1,1,1) has exactly 3 points. -/
theorem build_trajectory_spec_witness :
    2 ≤ 3 ∧ (build_trajectory ⟨0, 0, 0⟩ ⟨1, 1, 1⟩ 3).length = 3 :=
  ⟨by norm_num, (build_trajectory_spec ⟨0, 0, 0⟩ ⟨1, 1, 1⟩ 3 (by norm_num)).1⟩

theorem vsum_map_smul (k : ℝ) (l : List Vec3) :
    vsum (l.map (fun v => k • v)) = k • vsum l := by
  induction l with
  | nil => ext <;> simp [vsum]
  | cons v rest ih =>
    simp only [List.map, vsum, ih]
    ext <;> simp <;> ring

theorem meanDiff_scale (k : ℝ) (pairs : List (Vec3 × Vec3)) :
    meanDiff (scale_diffs k pairs) = k • meanDiff pairs := by
  unfold meanDiff scale_diffs
  rw [List.length_map, List.map_map]
  have hcomp : ((fun pr : Vec3 × Vec3 => pr.1 - pr.2) ∘
      (fun pr : Vec3 × Vec3 => (pr.2 + k • (pr.1 - pr.2), pr.2))) =
      (fun v => k • v) ∘ (fun pr : Vec3 × Vec3 => pr.1 - pr.2) := by
    funext pr
    ext <;> simp
  rw [hcomp, ← List.map_map, vsum_map_smul]
  ext <;> simp <;> ring

theorem meanDiff_single (l s : Vec3) : meanDiff [(l, s)] = l - s := by
  ext <;> simp [meanDiff, vsum]

/-- C8: the sample-pair ISD estimator depends only on the direction of the mean
lit-minus-shadow difference: rescaling every difference vector by a positive
factor k leaves the returned direction exactly unchanged, provided the mean
difference is nonzero. -/
theorem isd_scale_invariant (pairs : List (Vec3 × Vec3)) (k : ℝ) (hk : 0 < k)
    (hm : meanDiff pairs ≠ 0) :
    estimate_isd_pairs (scale_diffs k pairs) = estimate_isd_pairs pairs := by
  have hN : 0 < norm3 (meanDiff pairs) := norm3_pos_of_ne_zero _ hm
  unfold estimate_isd_pairs isdPairsDenom
  rw [meanDiff_scale, norm3_smul, abs_of_pos hk]
  ext <;> simp <;> field_simp <;> ring

/-- C8 witness: with the single pair (lit, shadow) = ((1,0,0), (0,0,0)) the mean
difference is nonzero and the scale factor 2 is positive, and the estimate is
unchanged under the rescaling. -/
theorem isd_scale_invariant_witness :
    (0 : ℝ) < 2 ∧ meanDiff [((⟨1, 0, 0⟩ : Vec3), (⟨0, 0, 0⟩ : Vec3))] ≠ 0 ∧
    estimate_isd_pairs (scale_diffs 2 [(⟨1, 0, 0⟩, ⟨0, 0, 0⟩)]) =
      estimate_isd_pairs [(⟨1, 0, 0⟩, ⟨0, 0, 0⟩)] := by
  have hm : meanDiff [((⟨1, 0, 0⟩ : Vec3), (⟨0, 0, 0⟩ : Vec3))] ≠ 0 := by
    rw [meanDiff_single]
    intro h
    have hx := congrArg Vec3.x h
    simp at hx
  exact ⟨by norm_num, hm, isd_scale_invariant [(⟨1, 0, 0⟩, ⟨0, 0, 0⟩)] 2 (by norm_num) hm⟩

theorem norm3_e1 : norm3 ⟨1, 0, 0⟩ = 1 := by
  have h : dot ⟨1, 0, 0⟩ ⟨1, 0, 0⟩ = 1 := by simp [dot]
  rw [norm3, h, Real.sqrt_one]

theorem meanDiff_degenerate : meanDiff [((⟨0, 0, 0⟩ : Vec3), (⟨0, 0, 0⟩ : Vec3))] = 0 := by
  rw [meanDiff_single]
  ext <;> simp

theorem isdPairsDenom_degenerate : isdPairsDenom [((⟨0, 0, 0⟩ : Vec3), (⟨0, 0, 0⟩ : Vec3))] = 0 := by
  rw [isdPairsDenom, meanDiff_degenerate, norm3_zero]

/-- C1 counterexample: the sample-pair entry path does not normalize with the
stabilized denominator. At the single pair ((1,0,0), (0,0,0)) the source result
(division by the bare norm) differs from the stabilizer version, and at the
degenerate pair ((0,0,0), (0,0,0)) the divisor the source uses is exactly 0,
so a division by zero does occur on that path. -/
theorem isd_pairs_stabilizer_counterexample :
    estimate_isd_pairs [(⟨1, 0, 0⟩, ⟨0, 0, 0⟩)] ≠
      estimate_isd_pairs_spec [(⟨1, 0, 0⟩, ⟨0, 0, 0⟩)] ∧
    isdPairsDenom [((⟨0, 0, 0⟩ : Vec3), (⟨0, 0, 0⟩ : Vec3))] = 0 := by
  refine ⟨?_, isdPairsDenom_degenerate⟩
  have hmd : meanDiff [((⟨1, 0, 0⟩ : Vec3), (⟨0, 0, 0⟩ : Vec3))] = ⟨1, 0, 0⟩ := by
    rw [meanDiff_single]
    ext <;> simp
  intro h
  have hx := congrArg Vec3.x h
  rw [estimate_isd_pairs, estimate_isd_pairs_spec, isdPairsDenom, hmd, norm3_e1] at hx
  simp at hx
  norm_num at hx

/-- C1 amended: only the illuminant-vector entry path (A, A+D) normalizes by
the Euclidean norm plus 1e-12, and there the denominator is strictly positive
for every input, so that path never divides by zero; the sample-pair entry
path divides the mean difference by its bare Euclidean norm, which is 0 when
the mean lit-minus-shadow difference is zero. -/
theorem isd_denominators_amended :
    (∀ A D : Vec3, 0 < isdVecDenom A D) ∧
    (∀ pairs : List (Vec3 × Vec3), isdPairsDenom pairs = norm3 (meanDiff pairs)) ∧
    isdPairsDenom [((⟨0, 0, 0⟩ : Vec3), (⟨0, 0, 0⟩ : Vec3))] = 0 := by
  refine ⟨fun A D => ?_, fun pairs => rfl, isdPairsDenom_degenerate⟩
  have hn := norm3_nonneg (to_log_rgb (A + D) 1e-8 - to_log_rgb A 1e-8)
  have h12 : (0 : ℝ) < 1e-12 := by norm_num
  rw [isdVecDenom]
  linarith

theorem clipLower_eq_max (x lo : ℝ) : clipLower x lo = max x lo := by
  rw [clipLower]
  rcases lt_or_le x lo with h | h
  · rw [if_pos h, max_eq_right h.le]
  · rw [if_neg (not_lt.mpr h), max_eq_left h]

theorem to_log_cmp_zero_one_one_x : (to_log_rgb_cmp ⟨0, 1, 1⟩ 1e-6).x = 0 := by
  have hle : Real.log ((0 : ℝ) + 1e-6) ≤ Real.log ((1 : ℝ) + 1e-6) :=
    (Real.log_lt_log (by norm_num) (by norm_num)).le
  rw [to_log_rgb_cmp, normalize01]
  simp only [Vec3.smul_x, Vec3.sub_x, vmin]
  rw [min_self, min_eq_left hle]
  ring

/-- C5 counterexample: the `to_log_rgb` of `linear_log_comparison.py` does not
return log(max(x, eps)) componentwise: at the sample (0, 1, 1) with eps = 1e-6
its first output component is 0 (after the normalize01 rescaling), while
log(max(0, 1e-6)) = log(1e-6) is negative. -/
theorem to_log_cmp_counterexample :
    (to_log_rgb_cmp ⟨0, 1, 1⟩ 1e-6).x ≠ Real.log (max 0 1e-6) := by
  rw [to_log_cmp_zero_one_one_x, max_eq_right (by norm_num : (0 : ℝ) ≤ 1e-6)]
  have hneg := Real.log_neg (by norm_num : (0 : ℝ) < 1e-6) (by norm_num : (1e-6 : ℝ) < 1)
  intro h
  rw [← h] at hneg
  exact lt_irrefl 0 hneg

/-- C5 amended: the `to_log_rgb` of `chroma_plane_2d_3d.py` clamps each
component to max(x, eps) before the natural logarithm, for every sample and
every eps (clamping, with no exception path, is its only safety mechanism);
the `to_log_rgb` of `linear_log_comparison.py` instead computes log(x + eps)
and rescales the result affinely to [0, 1], so its output components are not
log(max(x, eps)) in general, as at the sample (0, 1, 1) with eps = 1e-6. -/
theorem to_log_amended :
    (∀ (v : Vec3) (eps : ℝ), to_log_rgb v eps =
      ⟨Real.log (max v.x eps), Real.log (max v.y eps), Real.log (max v.z eps)⟩) ∧
    (to_log_rgb_cmp ⟨0, 1, 1⟩ 1e-6).x = 0 ∧ Real.log (max (0 : ℝ) 1e-6) < 0 := by
  refine ⟨fun v eps => ?_, to_log_cmp_zero_one_one_x, ?_⟩
  · rw [to_log_rgb, clipLower_eq_max, clipLower_eq_max, clipLower_eq_max]
  · rw [max_eq_right (by norm_num : (0 : ℝ) ≤ 1e-6)]
    exact Real.log_neg (by norm_num) (by norm_num)

theorem norm3_e3 : norm3 ⟨0, 0, 1⟩ = 1 := by
  have h : dot ⟨0, 0, 1⟩ ⟨0, 0, 1⟩ = 1 := by simp [dot]
  rw [norm3, h, Real.sqrt_one]

theorem norm3_zero_mk : norm3 ⟨0, 0, 0⟩ = 0 := by
  have h : dot ⟨0, 0, 0⟩ ⟨0, 0, 0⟩ = 0 := by simp [dot]
  rw [norm3, h, Real.sqrt_zero]

theorem vhat_e3 : vhat ⟨0, 0, 1⟩ = ⟨0, 0, 1 / (1 + 1e-12)⟩ := by
  rw [vhat, norm3_e3]
  ext <;> simp

theorem helperFor_e3 : helperFor ⟨0, 0, 1⟩ = ⟨1, 0, 0⟩ := by
  rw [helperFor, vhat_e3, if_pos (by norm_num)]

theorem u1pre_e3 : u1pre ⟨0, 0, 1⟩ = ⟨1, 0, 0⟩ := by
  rw [u1pre, helperFor_e3, vhat_e3]
  ext <;> simp [dot]

theorem u1of_e3 : u1of ⟨0, 0, 1⟩ = ⟨1 / (1 + 1e-12), 0, 0⟩ := by
  rw [u1of, u1pre_e3, norm3_e1]
  ext <;> simp

theorem u2pre_e3 : u2pre ⟨0, 0, 1⟩ = ⟨0, (1 / (1 + 1e-12)) ^ 2, 0⟩ := by
  rw [u2pre, vhat_e3, u1of_e3]
  ext <;> simp [cross]
  ring

theorem norm3_u2pre_e3 : norm3 (u2pre ⟨0, 0, 1⟩) = (1 / (1 + 1e-12)) ^ 2 := by
  rw [u2pre_e3]
  have h : dot ⟨0, (1 / (1 + 1e-12)) ^ 2, 0⟩ ⟨0, (1 / (1 + 1e-12)) ^ 2, 0⟩ =
      ((1 / (1 + 1e-12)) ^ 2) ^ 2 := by
    simp [dot]
    ring
  rw [norm3, h, Real.sqrt_sq (by positivity)]

theorem u2of_e3 :
    u2of ⟨0, 0, 1⟩ = ⟨0, (1 / (1 + 1e-12)) ^ 2 / ((1 / (1 + 1e-12)) ^ 2 + 1e-12), 0⟩ := by
  rw [u2of, norm3_u2pre_e3, u2pre_e3]
  ext <;> simp
  ring

theorem basis_e3_eval :
    orthonormal_basis_from_vector ⟨0, 0, 1⟩ =
      (⟨1 / (1 + 1e-12), 0, 0⟩,
       ⟨0, (1 / (1 + 1e-12)) ^ 2 / ((1 / (1 + 1e-12)) ^ 2 + 1e-12), 0⟩) := by
  rw [orthonormal_basis_from_vector, u1of_e3, u2of_e3]

/-- C6 counterexample: the helper-selection rule is applied to the renormalized
direction, not to the raw dot product with the X axis: at the unit direction
(0.9, sqrt(0.19), 0), whose dot product with X is 0.9 (not below 0.9, so the
claimed rule demands the Y helper), the code still selects the X helper; and
the basis at (0,0,1) is not exactly ((1,0,0), (0,1,0)): its first vector is
(1/(1+1e-12), 0, 0). -/
theorem helper_selection_counterexample :
    (norm3 ⟨0.9, Real.sqrt 0.19, 0⟩ = 1 ∧
     ¬ |(⟨0.9, Real.sqrt 0.19, 0⟩ : Vec3).x| < 0.9 ∧
     helperFor ⟨0.9, Real.sqrt 0.19, 0⟩ = ⟨1, 0, 0⟩) ∧
    (orthonormal_basis_from_vector ⟨0, 0, 1⟩).1 ≠ ⟨1, 0, 0⟩ := by
  have hs : Real.sqrt 0.19 * Real.sqrt 0.19 = 0.19 :=
    Real.mul_self_sqrt (by norm_num)
  have hd : dot ⟨0.9, Real.sqrt 0.19, 0⟩ ⟨0.9, Real.sqrt 0.19, 0⟩ = 1 := by
    simp [dot, hs]
    norm_num
  have hnorm : norm3 ⟨0.9, Real.sqrt 0.19, 0⟩ = 1 := by
    rw [norm3, hd, Real.sqrt_one]
  refine ⟨⟨hnorm, by push_neg; exact le_abs_self _, ?_⟩, ?_⟩
  · rw [helperFor, vhat, hnorm, if_pos ?_]
    simp only [Vec3.smul_x]
    rw [abs_of_pos (by norm_num)]
    norm_num
  · rw [basis_e3_eval]
    intro h
    have hx := congrArg Vec3.x h
    simp at hx
    norm_num at hx

/-- C6 amended: the helper axis is chosen from the renormalized direction
v / (|v| + 1e-12), so for a unit direction d the X helper is selected exactly
when |d.x| < 0.9 * (1 + 1e-12) (at the boundary |d.x| = 0.9 the X helper is
still chosen); build_basis((0,0,1)) selects the X helper and returns
u1 = (1/(1+1e-12), 0, 0) and u2 = (0, s^2/(s^2 + 1e-12), 0) with
s = 1/(1+1e-12) - each within 1e-6 of (1,0,0) and (0,1,0) but not exactly
equal to them. -/
theorem helper_selection_amended :
    (∀ d : Vec3, norm3 d = 1 →
      (helperFor d = ⟨1, 0, 0⟩ ↔ |d.x| < 0.9 * (1 + 1e-12))) ∧
    helperFor ⟨0, 0, 1⟩ = ⟨1, 0, 0⟩ ∧
    orthonormal_basis_from_vector ⟨0, 0, 1⟩ =
      (⟨1 / (1 + 1e-12), 0, 0⟩,
       ⟨0, (1 / (1 + 1e-12)) ^ 2 / ((1 / (1 + 1e-12)) ^ 2 + 1e-12), 0⟩) ∧
    (1 : ℝ) / (1 + 1e-12) ≠ 1 ∧
    |(1 : ℝ) / (1 + 1e-12) - 1| ≤ 1e-6 ∧
    |((1 : ℝ) / (1 + 1e-12)) ^ 2 / (((1 : ℝ) / (1 + 1e-12)) ^ 2 + 1e-12) - 1| ≤ 1e-6 := by
  refine ⟨?_, helperFor_e3, basis_e3_eval, by norm_num, ?_, ?_⟩
  · intro d hd
    rw [helperFor, vhat, hd]
    by_cases h : |(((1 : ℝ) / (1 + 1e-12)) • d).x| < 0.9
    · rw [if_pos h]
      simp only [Vec3.smul_x] at h
      rw [abs_mul, abs_of_pos (by norm_num : (0 : ℝ) < 1 / (1 + 1e-12))] at h
      have hgoal : |d.x| < 0.9 * (1 + 1e-12) := by
        nlinarith [abs_nonneg d.x]
      simp [hgoal]
    · rw [if_neg h]
      push_neg at h
      simp only [Vec3.smul_x] at h
      rw [abs_mul, abs_of_pos (by norm_num : (0 : ℝ) < 1 / (1 + 1e-12))] at h
      constructor
      · intro hEq
        exfalso
        have hx := congrArg Vec3.x hEq
        simp at hx
      · intro hlt
        exfalso
        nlinarith [abs_nonneg d.x]
  · rw [abs_le]
    constructor <;> norm_num
  · rw [abs_le]
    constructor <;> norm_num

/-- C6 witness: the unit direction (0,0,1) satisfies the norm hypothesis and
instantiates the amended helper-selection rule. -/
theorem helper_selection_amended_witness :
    norm3 ⟨0, 0, 1⟩ = 1 ∧
    (helperFor ⟨0, 0, 1⟩ = ⟨1, 0, 0⟩ ↔ |(⟨0, 0, 1⟩ : Vec3).x| < 0.9 * (1 + 1e-12)) :=
  ⟨norm3_e3, helper_selection_amended.1 ⟨0, 0, 1⟩ norm3_e3⟩

theorem vhat_zero_mk : vhat ⟨0, 0, 0⟩ = ⟨0, 0, 0⟩ := by
  rw [vhat, norm3_zero_mk]
  ext <;> simp

theorem helperFor_zero_mk : helperFor ⟨0, 0, 0⟩ = ⟨1, 0, 0⟩ := by
  rw [helperFor, vhat_zero_mk, if_pos (by norm_num)]

theorem u1pre_zero_mk : u1pre ⟨0, 0, 0⟩ = ⟨1, 0, 0⟩ := by
  rw [u1pre, helperFor_zero_mk, vhat_zero_mk]
  ext <;> simp [dot]

theorem u1of_zero_mk : u1of ⟨0, 0, 0⟩ = ⟨1 / (1 + 1e-12), 0, 0⟩ := by
  rw [u1of, u1pre_zero_mk, norm3_e1]
  ext <;> simp

theorem u2pre_zero_mk : u2pre ⟨0, 0, 0⟩ = ⟨0, 0, 0⟩ := by
  rw [u2pre, vhat_zero_mk, u1of_zero_mk]
  ext <;> simp [cross]

theorem u2of_zero_mk : u2of ⟨0, 0, 0⟩ = ⟨0, 0, 0⟩ := by
  rw [u2of, u2pre_zero_mk, norm3_zero_mk]
  ext <;> simp

theorem basis_zero_eval :
    orthonormal_basis_from_vector ⟨0, 0, 0⟩ = (⟨1 / (1 + 1e-12), 0, 0⟩, ⟨0, 0, 0⟩) := by
  rw [orthonormal_basis_from_vector, u1of_zero_mk, u2of_zero_mk]

/-- C10 counterexample: at the zero input vector the first returned basis
vector is (1/(1+1e-12), 0, 0), which is not equal to (1,0,0). -/
theorem basis_zero_counterexample :
    (orthonormal_basis_from_vector ⟨0, 0, 0⟩).1 ≠ ⟨1, 0, 0⟩ := by
  rw [basis_zero_eval]
  intro h
  have hx := congrArg Vec3.x h
  simp at hx
  norm_num at hx

/-- C10 amended: on the zero vector the basis builder signals nothing and
returns u1 = (1/(1+1e-12), 0, 0) - within 1e-6 of (1,0,0) though not exactly
equal - together with u2 equal to the zero vector, whose norm is 0 and not 1,
silently violating the orthonormal-basis invariant instead of reporting a
degenerate direction. -/
theorem basis_zero_amended :
    orthonormal_basis_from_vector ⟨0, 0, 0⟩ = (⟨1 / (1 + 1e-12), 0, 0⟩, ⟨0, 0, 0⟩) ∧
    norm3 (orthonormal_basis_from_vector ⟨0, 0, 0⟩).2 = 0 ∧
    norm3 (orthonormal_basis_from_vector ⟨0, 0, 0⟩).2 ≠ 1 ∧
    |(orthonormal_basis_from_vector ⟨0, 0, 0⟩).1.x - 1| ≤ 1e-6 := by
  have h2 : norm3 (orthonormal_basis_from_vector ⟨0, 0, 0⟩).2 = 0 := by
    rw [basis_zero_eval]
    exact norm3_zero_mk
  refine ⟨basis_zero_eval, h2, by rw [h2]; norm_num, ?_⟩
  rw [basis_zero_eval]
  simp only
  rw [abs_le]
  constructor <;> norm_num

theorem dot_sub_smul_self (a d : Vec3) (c : ℝ) :
    dot (a - c • d) (a - c • d) = dot a a - 2 * c * dot a d + c ^ 2 * dot d d := by
  simp only [dot, Vec3.sub_x, Vec3.sub_y, Vec3.sub_z, Vec3.smul_x, Vec3.smul_y, Vec3.smul_z]
  ring

theorem dot_right_sub_smul (d a : Vec3) (c : ℝ) :
    dot d (a - c • d) = dot d a - c * dot d d := by
  simp only [dot, Vec3.sub_x, Vec3.sub_y, Vec3.sub_z, Vec3.smul_x, Vec3.smul_y, Vec3.smul_z]
  ring

theorem ratio_near_one (N : ℝ) (hlb : 0.41 ≤ N) :
    1 - 1e-11 ≤ N / (N + 1e-12) ∧ N / (N + 1e-12) ≤ 1 := by
  have hpos : 0 < N + 1e-12 := by linarith
  constructor
  · rw [le_div_iff₀ hpos]
    nlinarith
  · rw [div_le_one hpos]
    linarith

theorem k_bounds :
    (0 : ℝ) < 1 / (1 + 1e-12) ∧ (1 : ℝ) / (1 + 1e-12) ≤ 1 ∧
    (1 : ℝ) - 1e-12 ≤ 1 / (1 + 1e-12) := by
  refine ⟨by norm_num, ?_, ?_⟩
  · rw [div_le_one (by norm_num)]
    norm_num
  · rw [le_div_iff₀ (by norm_num)]
    norm_num

theorem dot_self_unit (d : Vec3) (hd : norm3 d = 1) : dot d d = 1 := by
  have h := norm3_sq d
  rw [hd, one_pow] at h
  exact h.symm

theorem vhat_unit (d : Vec3) (hd : norm3 d = 1) : vhat d = ((1 : ℝ) / (1 + 1e-12)) • d := by
  rw [vhat, hd]

theorem helper_facts (d : Vec3) (hd : norm3 d = 1) :
    dot (helperFor d) (helperFor d) = 1 ∧ dot (helperFor d) d ^ 2 ≤ 0.83 := by
  obtain ⟨hk_pos, hk_le1, hk_ge⟩ := k_bounds
  have hdd := dot_self_unit d hd
  rw [helperFor, vhat_unit d hd]
  obtain ⟨k, hk⟩ : ∃ k : ℝ, 1 / (1 + 1e-12) = k := ⟨_, rfl⟩
  rw [hk] at hk_pos hk_le1 hk_ge ⊢
  clear hk hd
  by_cases h : |(k • d).x| < 0.9
  · rw [if_pos h]
    refine ⟨by simp [dot], ?_⟩
    simp only [Vec3.smul_x] at h
    rw [abs_mul, abs_of_pos hk_pos] at h
    have hsq : dot ⟨1, 0, 0⟩ d = d.x := by simp [dot]
    rw [hsq]
    have hka : 0 ≤ k * |d.x| := mul_nonneg hk_pos.le (abs_nonneg d.x)
    have h2 : (k * |d.x|) ^ 2 < 0.81 := by nlinarith
    have hk2 : (1 - 1e-12 : ℝ) ^ 2 ≤ k ^ 2 := by nlinarith
    nlinarith [sq_abs d.x, sq_nonneg d.x, abs_nonneg d.x]
  · rw [if_neg h]
    refine ⟨by simp [dot], ?_⟩
    push_neg at h
    simp only [Vec3.smul_x] at h
    rw [abs_mul, abs_of_pos hk_pos] at h
    have hk1 : 0 ≤ (1 - k) * |d.x| := mul_nonneg (by linarith) (abs_nonneg d.x)
    have h09 : 0.9 ≤ |d.x| := by nlinarith
    have hx2 : 0.81 ≤ d.x ^ 2 := by nlinarith [sq_abs d.x]
    have hsq : dot ⟨0, 1, 0⟩ d = d.y := by simp [dot]
    rw [hsq]
    simp only [dot] at hdd
    nlinarith [sq_nonneg d.z]

theorem u1pre_facts (d : Vec3) (hd : norm3 d = 1) :
    0.17 ≤ dot (u1pre d) (u1pre d) ∧ dot (u1pre d) (u1pre d) ≤ 1 ∧
    |dot d (u1pre d)| ≤ 3e-12 := by
  obtain ⟨hk_pos, hk_le1, hk_ge⟩ := k_bounds
  obtain ⟨ha1, ht2⟩ := helper_facts d hd
  have hdd := dot_self_unit d hd
  have hu1pre : u1pre d = helperFor d -
      ((1 / (1 + 1e-12)) * ((1 / (1 + 1e-12)) * dot (helperFor d) d)) • d := by
    rw [u1pre, vhat_unit d hd, dot_smul_right]
    ext <;> simp <;> ring
  obtain ⟨k, hk⟩ : ∃ k : ℝ, (1 : ℝ) / (1 + 1e-12) = k := ⟨_, rfl⟩
  rw [hk] at hk_pos hk_le1 hk_ge hu1pre
  clear hk hd
  have hS1 : dot (u1pre d) (u1pre d) =
      1 - k ^ 2 * (2 - k ^ 2) * dot (helperFor d) d ^ 2 := by
    rw [hu1pre, dot_sub_smul_self, ha1, hdd, dot_comm (helperFor d) d]
    ring
  have hdu1pre : dot d (u1pre d) = dot (helperFor d) d * (1 - k ^ 2) := by
    rw [hu1pre, dot_right_sub_smul, hdd, dot_comm d (helperFor d)]
    ring
  clear hu1pre
  have hk2_le1 : k ^ 2 ≤ 1 := by nlinarith
  have hA_ub : k ^ 2 * (2 - k ^ 2) ≤ 1 := by nlinarith [sq_nonneg (1 - k ^ 2)]
  have hA_lb : 0 ≤ k ^ 2 * (2 - k ^ 2) := mul_nonneg (sq_nonneg k) (by linarith)
  have hk2_ge : ((1 : ℝ) - 1e-12) ^ 2 ≤ k ^ 2 := by nlinarith
  have h1k2_ub : 1 - k ^ 2 ≤ 3e-12 := by nlinarith
  have ht_abs : |dot (helperFor d) d| ≤ 1 := by
    nlinarith [abs_nonneg (dot (helperFor d) d), sq_abs (dot (helperFor d) d)]
  refine ⟨?_, ?_, ?_⟩
  · rw [hS1]
    nlinarith [mul_le_mul hA_ub ht2 (sq_nonneg (dot (helperFor d) d)) zero_le_one]
  · rw [hS1]
    nlinarith [mul_nonneg hA_lb (sq_nonneg (dot (helperFor d) d))]
  · rw [hdu1pre, abs_mul, abs_of_nonneg (by linarith : (0 : ℝ) ≤ 1 - k ^ 2)]
    calc |dot (helperFor d) d| * (1 - k ^ 2) ≤ 1 * 3e-12 :=
          mul_le_mul ht_abs h1k2_ub (by linarith) zero_le_one
      _ ≤ 3e-12 := by norm_num

theorem u1of_facts (d : Vec3) (hd : norm3 d = 1) :
    |norm3 (u1of d) - 1| ≤ 1e-6 ∧
    1 - 2.1e-11 ≤ dot (u1of d) (u1of d) ∧ dot (u1of d) (u1of d) ≤ 1 ∧
    |dot d (u1of d)| ≤ 1e-11 := by
  obtain ⟨hS1_lb, hS1_ub, hd_abs⟩ := u1pre_facts d hd
  clear hd
  have hN1_lb : 0.41 ≤ norm3 (u1pre d) := le_norm3 _ _ (by nlinarith)
  have hN1_ub : norm3 (u1pre d) ≤ 1 := norm3_le _ _ zero_le_one (by nlinarith)
  have hden_pos : 0 < norm3 (u1pre d) + 1e-12 := by linarith
  have hc_pos : 0 < 1 / (norm3 (u1pre d) + 1e-12) := by positivity
  have hnu1 : norm3 (u1of d) = norm3 (u1pre d) / (norm3 (u1pre d) + 1e-12) := by
    rw [u1of, norm3_smul, abs_of_pos hc_pos]
    ring
  have hr1 := ratio_near_one (norm3 (u1pre d)) hN1_lb
  have hS1of : dot (u1of d) (u1of d) = norm3 (u1of d) ^ 2 := (norm3_sq _).symm
  have hdu1of : dot d (u1of d) = (1 / (norm3 (u1pre d) + 1e-12)) * dot d (u1pre d) := by
    rw [u1of, dot_smul_right]
  have hc_ub : 1 / (norm3 (u1pre d) + 1e-12) ≤ 1 / 0.41 :=
    one_div_le_one_div_of_le (by norm_num) (by linarith)
  refine ⟨?_, ?_, ?_, ?_⟩
  · rw [hnu1, abs_le]
    constructor
    · linarith [hr1.1]
    · linarith [hr1.2]
  · rw [hS1of, hnu1]
    nlinarith [hr1.1, hr1.2]
  · rw [hS1of, hnu1]
    nlinarith [hr1.1, hr1.2]
  · rw [hdu1of, abs_mul, abs_of_pos hc_pos]
    calc 1 / (norm3 (u1pre d) + 1e-12) * |dot d (u1pre d)| ≤ 1 / 0.41 * 3e-12 :=
          mul_le_mul hc_ub hd_abs (abs_nonneg _) (by norm_num)
      _ ≤ 1e-11 := by norm_num

theorem w_facts (d : Vec3) (hd : norm3 d = 1) :
    1 - 2.2e-11 ≤ norm3 (cross d (u1of d)) ∧ norm3 (cross d (u1of d)) ≤ 1 := by
  obtain ⟨-, hlb, hub, hdel⟩ := u1of_facts d hd
  have hdd := dot_self_unit d hd
  clear hd
  have hSw : dot (cross d (u1of d)) (cross d (u1of d)) =
      dot (u1of d) (u1of d) - dot d (u1of d) ^ 2 := by
    rw [dot_cross_self, hdd]
    ring
  have hd2 : dot d (u1of d) ^ 2 ≤ 1e-22 := by
    nlinarith [abs_nonneg (dot d (u1of d)), sq_abs (dot d (u1of d))]
  constructor
  · apply le_norm3
    rw [hSw]
    nlinarith
  · apply norm3_le _ _ zero_le_one
    rw [hSw]
    nlinarith [sq_nonneg (dot d (u1of d))]

theorem u2pre_eq (d : Vec3) (hd : norm3 d = 1) :
    u2pre d = ((1 : ℝ) / (1 + 1e-12)) • cross d (u1of d) := by
  rw [u2pre, vhat_unit d hd, cross_smul_left]

theorem u2pre_norm_facts (d : Vec3) (hd : norm3 d = 1) :
    0.9 ≤ norm3 (u2pre d) ∧ norm3 (u2pre d) ≤ 1 / (1 + 1e-12) ∧
    (1 / (1 + 1e-12)) * (1 - 2.2e-11) ≤ norm3 (u2pre d) := by
  obtain ⟨hk_pos, hk_le1, hk_ge⟩ := k_bounds
  obtain ⟨hW_lb, hW_ub⟩ := w_facts d hd
  have hN2 : norm3 (u2pre d) = (1 / (1 + 1e-12)) * norm3 (cross d (u1of d)) := by
    rw [u2pre_eq d hd, norm3_smul, abs_of_pos hk_pos]
  obtain ⟨k, hk⟩ : ∃ k : ℝ, (1 : ℝ) / (1 + 1e-12) = k := ⟨_, rfl⟩
  rw [hk] at hk_pos hk_le1 hk_ge hN2 ⊢
  clear hk hd
  have hW0 : 0 ≤ norm3 (cross d (u1of d)) := norm3_nonneg _
  refine ⟨?_, ?_, ?_⟩
  · rw [hN2]
    nlinarith
  · rw [hN2]
    nlinarith
  · rw [hN2]
    nlinarith

theorem q_near_one (d : Vec3) (hd : norm3 d = 1) :
    |1 - (1 / (1 + 1e-12)) * (1 / (norm3 (u2pre d) + 1e-12))| ≤ 1e-10 := by
  obtain ⟨hk_pos, hk_le1, hk_ge⟩ := k_bounds
  obtain ⟨hN2_09, hN2_le_k, hN2_ge⟩ := u2pre_norm_facts d hd
  obtain ⟨k, hk⟩ : ∃ k : ℝ, (1 : ℝ) / (1 + 1e-12) = k := ⟨_, rfl⟩
  rw [hk] at hk_pos hk_le1 hk_ge hN2_le_k hN2_ge ⊢
  clear hk hd
  have hden_pos : 0 < norm3 (u2pre d) + 1e-12 := by linarith
  rw [mul_one_div, abs_le]
  constructor
  · have hq_ub : k / (norm3 (u2pre d) + 1e-12) ≤ 1 + 1e-10 := by
      rw [div_le_iff₀ hden_pos]
      nlinarith
    linarith
  · have hq_lb : 1 - 1e-10 ≤ k / (norm3 (u2pre d) + 1e-12) := by
      rw [le_div_iff₀ hden_pos]
      nlinarith
    linarith

/-- C2: for every unit direction d, the basis builder returns (u1, u2) with
both norms within 1e-6 of 1, d orthogonal to u1 and to u2 within 1e-6, u1
orthogonal to u2 within 1e-6, and the right-handedness relation cross d u1 = u2
holding componentwise within 1e-6. -/
theorem build_basis_orthonormal (d : Vec3) (hd : norm3 d = 1) :
    |norm3 (orthonormal_basis_from_vector d).1 - 1| ≤ 1e-6 ∧
    |norm3 (orthonormal_basis_from_vector d).2 - 1| ≤ 1e-6 ∧
    |dot d (orthonormal_basis_from_vector d).1| ≤ 1e-6 ∧
    |dot d (orthonormal_basis_from_vector d).2| ≤ 1e-6 ∧
    |dot (orthonormal_basis_from_vector d).1 (orthonormal_basis_from_vector d).2| ≤ 1e-6 ∧
    |(cross d (orthonormal_basis_from_vector d).1).x - (orthonormal_basis_from_vector d).2.x| ≤
      1e-6 ∧
    |(cross d (orthonormal_basis_from_vector d).1).y - (orthonormal_basis_from_vector d).2.y| ≤
      1e-6 ∧
    |(cross d (orthonormal_basis_from_vector d).1).z - (orthonormal_basis_from_vector d).2.z| ≤
      1e-6 := by
  simp only [orthonormal_basis_from_vector]
  obtain ⟨goal1, -, -, hdel⟩ := u1of_facts d hd
  obtain ⟨hN2_09, -, -⟩ := u2pre_norm_facts d hd
  obtain ⟨hW_lb, hW_ub⟩ := w_facts d hd
  have habs_q := q_near_one d hd
  have hu2pre := u2pre_eq d hd
  have goal3 : |dot d (u1of d)| ≤ 1e-6 := le_trans hdel (by norm_num)
  have hden2_pos : 0 < norm3 (u2pre d) + 1e-12 := by linarith
  have hc2_pos : 0 < 1 / (norm3 (u2pre d) + 1e-12) := by positivity
  have hk_pos := k_bounds.1
  have hnu2 : norm3 (u2of d) = norm3 (u2pre d) / (norm3 (u2pre d) + 1e-12) := by
    rw [u2of, norm3_smul, abs_of_pos hc2_pos]
    ring
  have hr2 := ratio_near_one (norm3 (u2pre d)) (by linarith)
  have goal2 : |norm3 (u2of d) - 1| ≤ 1e-6 := by
    rw [hnu2, abs_le]
    constructor
    · linarith [hr2.1]
    · linarith [hr2.2]
  have goal4 : |dot d (u2of d)| ≤ 1e-6 := by
    have h0 : dot d (u2of d) = 0 := by
      rw [u2of, dot_smul_right, hu2pre, dot_smul_right, dot_cross_left]
      ring
    rw [h0, abs_zero]
    norm_num
  have goal5 : |dot (u1of d) (u2of d)| ≤ 1e-6 := by
    have h0 : dot (u1of d) (u2of d) = 0 := by
      rw [u2of, dot_smul_right, hu2pre, dot_smul_right, dot_cross_right]
      ring
    rw [h0, abs_zero]
    norm_num
  have hcomp : ∀ wc u2c : ℝ, |wc| ≤ 1 →
      u2c = (1 / (1 + 1e-12)) * (1 / (norm3 (u2pre d) + 1e-12)) * wc →
      |wc - u2c| ≤ 1e-6 := by
    intro wc u2c hwc hu
    rw [hu]
    have heq : wc - (1 / (1 + 1e-12)) * (1 / (norm3 (u2pre d) + 1e-12)) * wc =
        (1 - (1 / (1 + 1e-12)) * (1 / (norm3 (u2pre d) + 1e-12))) * wc := by ring
    rw [heq, abs_mul]
    calc |1 - (1 / (1 + 1e-12)) * (1 / (norm3 (u2pre d) + 1e-12))| * |wc| ≤ 1e-10 * 1 :=
          mul_le_mul habs_q hwc (abs_nonneg _) (by norm_num)
      _ ≤ 1e-6 := by norm_num
  have hu2x : (u2of d).x =
      (1 / (1 + 1e-12)) * (1 / (norm3 (u2pre d) + 1e-12)) * (cross d (u1of d)).x := by
    rw [u2of, hu2pre]
    simp
    ring
  have hu2y : (u2of d).y =
      (1 / (1 + 1e-12)) * (1 / (norm3 (u2pre d) + 1e-12)) * (cross d (u1of d)).y := by
    rw [u2of, hu2pre]
    simp
    ring
  have hu2z : (u2of d).z =
      (1 / (1 + 1e-12)) * (1 / (norm3 (u2pre d) + 1e-12)) * (cross d (u1of d)).z := by
    rw [u2of, hu2pre]
    simp
    ring
  refine ⟨goal1, goal2, goal3, goal4, goal5, ?_, ?_, ?_⟩
  · exact hcomp _ _ (le_trans (abs_x_le_norm3 _) hW_ub) hu2x
  · exact hcomp _ _ (le_trans (abs_y_le_norm3 _) hW_ub) hu2y
  · exact hcomp _ _ (le_trans (abs_z_le_norm3 _) hW_ub) hu2z

/-- C2 witness: the unit vector (0,0,1) satisfies the norm hypothesis, and the
basis built from it has its first vector of norm within 1e-6 of 1. -/
theorem build_basis_orthonormal_witness :
    norm3 ⟨0, 0, 1⟩ = 1 ∧
    |norm3 (orthonormal_basis_from_vector ⟨0, 0, 1⟩).1 - 1| ≤ 1e-6 :=
  ⟨norm3_e3, (build_basis_orthonormal ⟨0, 0, 1⟩ norm3_e3).1⟩

end

end BIDR
